import Mathlib

/-!
Verification of the freshness / rotation / history logic of `src/bot.py`.

Modelling conventions (shallow embedding):
* Timestamps are `Nat`, counted in seconds from Python's `datetime.min`
  (so `datetime.min` itself is `0`, and every representable instant is a
  `Nat`).  A record whose `utc_published` field is missing or fails
  `datetime.fromisoformat` is modelled with `none`; a successful parse with
  `some t`.  Stored timestamp strings written by the program are normalised
  ISO strings, so string equality on them coincides with equality of the
  parsed instants.
* `dt.datetime.now(pytz.utc)` is passed explicitly as a `now : Nat`
  parameter.
* Python code that can raise an uncaught exception is modelled with
  `Option` (`none` = the call raises).
* rapidfuzz's `fuzz.token_sort_ratio` returns a double in [0, 100]; it is
  modelled exactly over `Rat` (lowercase was already applied by the caller;
  the function splits on whitespace runs, sorts the tokens, joins with a
  single space and takes the normalised InDel similarity
  `200 * lcs / (len1 + len2)`, with two empty strings scoring 100).
-/

namespace BloggerBot

/-- One second granularity: a day, in seconds. -/
def daySeconds : Nat := 86400

/-- `MAX_HISTORY_DAYS = 30` (bot.py line 19). -/
def MAX_HISTORY_DAYS : Nat := 30

/-- `TOPIC_COOLDOWN_DAYS = 7` (bot.py line 20). -/
def TOPIC_COOLDOWN_DAYS : Nat := 7

/-- `TITLE_SIMILARITY_BLOCK_DAYS = 30` (bot.py line 21). -/
def TITLE_SIMILARITY_BLOCK_DAYS : Nat := 30

/-- `TITLE_SIMILARITY_THRESHOLD = 65` (bot.py line 22). -/
def TITLE_SIMILARITY_THRESHOLD : Int := 65

/-- `ALLOWED_TOPICS` (bot.py lines 27-31), in source order. -/
def ALLOWED_TOPICS : List String :=
  ["Personal Life and Stories", "Food and Recipes", "Travel",
   "How-To Guides and Tutorials", "Product Reviews", "Money and Finance",
   "Productivity", "Health and Fitness", "Fashion", "Lists and Roundups"]

/-- One record of the history file: an element of the JSON `posts` list
(bot.py lines 204-208 show the shape `{title, topic, utc_published}`).
`utc_published` is the parsed timestamp; `none` when the stored string is
missing or unparseable. -/
structure Post where
  title : String
  topic : String
  utc_published : Option Nat
deriving DecidableEq, Repr

/-- The `try: post_time = fromisoformat(...); post_time >= cutoff` pattern
shared by `is_topic_on_cooldown` and `is_title_too_similar`: a record
counts only when its timestamp parses and is at or after `now - days`.
An unparseable timestamp (`none`) is skipped (the `except ... continue`). -/
def withinWindow (now days : Nat) : Option Nat → Bool
  | some t => now - days * daySeconds ≤ t
  | none => false

/-- `is_topic_on_cooldown` (bot.py lines 222-232): true iff some record
with matching topic has a parseable timestamp at or after
`now - cooldown_days` days. -/
def is_topic_on_cooldown (now : Nat) (posts : List Post) (topic : String)
    (cooldownDays : Nat) : Bool :=
  posts.any fun p => p.topic == topic && withinWindow now cooldownDays p.utc_published

/-- Python `str.lower()` on the title characters (ASCII titles). -/
def lowerChars (cs : List Char) : List Char := cs.map Char.toLower

/-- Python `str.split()` with no argument: split on runs of whitespace,
dropping empty tokens.  `cur` accumulates the current token reversed. -/
def splitWsAux : List Char → List Char → List (List Char)
  | [], [] => []
  | [], cur => [cur.reverse]
  | c :: cs, cur =>
    if c.isWhitespace then
      match cur with
      | [] => splitWsAux cs []
      | _ => cur.reverse :: splitWsAux cs []
    else splitWsAux cs (c :: cur)

/-- Lexicographic comparison of tokens by code point, Python string `<=`. -/
def lexLe : List Char → List Char → Bool
  | [], _ => true
  | _ :: _, [] => false
  | a :: as, b :: bs =>
    if a.toNat < b.toNat then true
    else if b.toNat < a.toNat then false
    else lexLe as bs

/-- Stable insertion into a sorted token list. -/
def insertTok (x : List Char) : List (List Char) → List (List Char)
  | [] => [x]
  | y :: ys => if lexLe x y then x :: y :: ys else y :: insertTok x ys

/-- Python `sorted()` over the token list (stable, lexicographic). -/
def sortTokens : List (List Char) → List (List Char)
  | [] => []
  | x :: xs => insertTok x (sortTokens xs)

/-- `" ".join(tokens)`. -/
def joinTokens : List (List Char) → List Char
  | [] => []
  | [x] => x
  | x :: xs => x ++ Char.ofNat 32 :: joinTokens xs

/-- The token-sort preprocessing of rapidfuzz `token_sort_ratio`:
split on whitespace, sort the tokens, join with single spaces. -/
def tokenChars (cs : List Char) : List Char :=
  joinTokens (sortTokens (splitWsAux cs []))

/-- Length of a longest common subsequence, computed with explicit fuel so
that the definition is structurally recursive (and kernel-reducible).
Each recursive call drops at least one character, so fuel
`as.length + bs.length` is always sufficient. -/
def lcsAux : Nat → List Char → List Char → Nat
  | 0, _, _ => 0
  | _ + 1, [], _ => 0
  | _ + 1, _ :: _, [] => 0
  | fuel + 1, a :: as, b :: bs =>
    if a = b then lcsAux fuel as bs + 1
    else max (lcsAux fuel (a :: as) bs) (lcsAux fuel as (b :: bs))

/-- Longest common subsequence length of two character lists. -/
def lcs (as bs : List Char) : Nat := lcsAux (as.length + bs.length) as bs

/-- Normalised InDel similarity scaled to [0, 100], as rapidfuzz
`fuzz.ratio` computes it: `100 * (1 - dist/(l1+l2)) = 200*lcs/(l1+l2)`,
with two empty strings scoring 100. -/
def indelScore (x y : List Char) : Rat :=
  if x.length + y.length = 0 then 100
  else mkRat (200 * (lcs x y : Int)) (x.length + y.length)

/-- Models rapidfuzz `fuzz.token_sort_ratio` on two already-lowercased
character lists. -/
def tokenSortScore (a b : List Char) : Rat :=
  indelScore (tokenChars a) (tokenChars b)

/-- `fuzz.token_sort_ratio(new_title.lower(), post["title"].lower())`
(bot.py line 241). -/
def similarityScore (newTitle oldTitle : String) : Rat :=
  tokenSortScore (lowerChars newTitle.data) (lowerChars oldTitle.data)

/-- `is_title_too_similar` (bot.py lines 234-250): true iff some record
whose timestamp parses and lies within `block_days` of `now` has a title
whose similarity score with the candidate reaches `threshold`.  Records
with missing or unparseable timestamps are skipped by the
`except ... continue`. -/
def is_title_too_similar (now : Nat) (posts : List Post) (newTitle : String)
    (threshold : Int) (blockDays : Nat) : Bool :=
  posts.any fun p =>
    withinWindow now blockDays p.utc_published &&
      decide ((threshold : Rat) ≤ similarityScore newTitle p.title)

/-- The body of the `for post in history["posts"]` loop of
`select_fresh_topic`'s fallback (bot.py lines 271-278): on a record with
the given topic and a parseable timestamp later than the accumulator,
advance the accumulator; otherwise (other topic, or parse failure) leave
it unchanged. -/
def tluStep (topic : String) (acc : Nat) (p : Post) : Nat :=
  if p.topic == topic then
    match p.utc_published with
    | some t => if acc < t then t else acc
    | none => acc
  else acc

/-- The `last_used` accumulation of `select_fresh_topic` (bot.py lines
270-278): starting from `datetime.min` (= 0), the maximum parseable
timestamp over the records with the given topic. -/
def topicLastUsed (posts : List Post) (topic : String) : Nat :=
  posts.foldl (tluStep topic) 0

/-- Python `min(items, key=lambda x: x[1])`: the first pair attaining the
minimal second component (later pairs replace only on strictly smaller). -/
def argminFirst : String × Nat → List (String × Nat) → String × Nat
  | best, [] => best
  | best, x :: xs => argminFirst (if x.2 < best.2 then x else best) xs

/-- The all-on-cooldown fallback of `select_fresh_topic` (bot.py lines
268-280): least-recently-used topic over `ALLOWED_TOPICS`. -/
def fallbackLRU (posts : List Post) : String :=
  match ALLOWED_TOPICS.map (fun t => (t, topicLastUsed posts t)) with
  | [] => ""
  | x :: xs => (argminFirst x xs).1

/-- `select_fresh_topic` (bot.py lines 263-280): the first topic of
`ALLOWED_TOPICS` (in list order) not on cooldown; when every topic is on
cooldown, the least-recently-used topic.  (The `[]` branch of the inner
match in `fallbackLRU` is unreachable: `ALLOWED_TOPICS` is nonempty.) -/
def select_fresh_topic (now : Nat) (posts : List Post) : String :=
  match ALLOWED_TOPICS.filter
      (fun t => !(is_topic_on_cooldown now posts t TOPIC_COOLDOWN_DAYS)) with
  | t :: _ => t
  | [] => fallbackLRU posts

/-- The record-keeping predicate of `prune_history` (bot.py line 219):
keep a record iff its timestamp is at or after `now - MAX_HISTORY_DAYS`. -/
def keepRecent (now : Nat) (p : Post) : Bool :=
  withinWindow now MAX_HISTORY_DAYS p.utc_published

/-- The list comprehension of `prune_history` (bot.py lines 217-220).
There is no try/except around `fromisoformat` here, so the comprehension
raises on the first record whose timestamp is missing or unparseable;
`none` models that exception.  Otherwise it returns records at or after
the cutoff. -/
def prunePosts (now : Nat) (posts : List Post) : Option (List Post) :=
  if posts.all (fun p => p.utc_published.isSome) then
    some (posts.filter (keepRecent now))
  else none

/-- The history document: the JSON object read from `post_history.json`.
`posts = none` models a document without a `"posts"` key. -/
structure HistoryDoc where
  posts : Option (List Post)
deriving DecidableEq, Repr

/-- `prune_history` (bot.py lines 211-220): a document without a `"posts"`
key gets an empty list; otherwise the posts list is filtered, raising
(`none`) when some record has a missing or unparseable timestamp. -/
def prune_history (now : Nat) (doc : HistoryDoc) : Option HistoryDoc :=
  match doc.posts with
  | none => some ⟨some []⟩
  | some ps => (prunePosts now ps).map (fun qs => ⟨some qs⟩)

/-- The state of the history file on disk, as `load_history` (bot.py
lines 164-171) can observe it: the file is absent (`os.path.exists`
false); present but its bytes are not valid UTF-8 (text-mode `json.load`
raises `UnicodeDecodeError` while decoding); present and UTF-8-decodable
but not valid JSON (`json.JSONDecodeError`); or present and decodable to
a document. -/
inductive FileState where
  | missing
  | notUtf8
  | badJson
  | valid (doc : HistoryDoc)
deriving DecidableEq

/-- The empty history `{"posts": []}` (bot.py lines 170-171). -/
def emptyHistory : HistoryDoc := ⟨some []⟩

/-- `load_history` (bot.py lines 164-171).  A missing file yields the
empty history; a UTF-8-decodable file that fails JSON parsing raises
`json.JSONDecodeError`, which is caught, also yielding the empty
history; a decodable file yields its document unchanged.  The `except`
clause names only `json.JSONDecodeError`, so on a file whose bytes are
not valid UTF-8 the `UnicodeDecodeError` raised by `json.load`
propagates — modelled by `none`. -/
def load_history : FileState → Option HistoryDoc
  | .missing => some emptyHistory
  | .notUtf8 => none
  | .badJson => some emptyHistory
  | .valid doc => some doc

/-- One post returned by the remote blog listing, as
`update_history_from_blog` (bot.py lines 177-208) consumes it:
its title, its parsed `published` field (`none` when missing or
unparseable), and the topic recovered from the embedded
`<!-- Topic: ... -->` comment of its content (the string extraction
itself, bot.py lines 186-192, only produces this `topic` value — config
`"Unknown"` when absent — and plays no further part in the logic). -/
structure RemotePost where
  title : String
  published : Option Nat
  topic : String
deriving DecidableEq, Repr

/-- The body of the `for post in recent_posts` loop of
`update_history_from_blog` (bot.py lines 181-208) acting on the
accumulated posts list: a parseable timestamp older than the cutoff is
skipped (`continue`); an unparseable one is replaced by `now`; then the
record is appended unless some existing record matches on both title and
timestamp. -/
def updateStep (now : Nat) (acc : List Post) (rp : RemotePost) : List Post :=
  match rp.published with
  | some t =>
    if t < now - MAX_HISTORY_DAYS * daySeconds then acc
    else if acc.any (fun p => p.title == rp.title && p.utc_published == some t) then acc
    else acc ++ [⟨rp.title, rp.topic, some t⟩]
  | none =>
    if acc.any (fun p => p.title == rp.title && p.utc_published == some now) then acc
    else acc ++ [⟨rp.title, rp.topic, some now⟩]

/-- `update_history_from_blog` (bot.py lines 177-209) on the posts list:
fold the remote posts through `updateStep`, then `prune_history`
(which raises — `none` — when some record has an unparseable timestamp). -/
def update_history_from_blog (now : Nat) (remote : List RemotePost)
    (posts : List Post) : Option (List Post) :=
  prunePosts now (remote.foldl (updateStep now) posts)

/-- Index of the first maximal value in a list of last-used timestamps. -/
def idxOfMaxAux : List Nat → Nat → Nat → Nat → Nat
  | [], _, bi, _ => bi
  | v :: vs, i, bi, bv =>
    if bv < v then idxOfMaxAux vs (i + 1) i v else idxOfMaxAux vs (i + 1) bi bv

/-- Modelled from the spec: the rotation index of "the last-used" topic —
the topic with the greatest last-seen timestamp in the history (first such
index on ties). -/
def lastUsedIdx (posts : List Post) : Nat :=
  match ALLOWED_TOPICS.map (topicLastUsed posts) with
  | [] => 0
  | v :: vs => idxOfMaxAux vs 1 0 v

/-- Modelled from the spec (section 4.1, `selectFreshTopic`): "returns the
next rotation entry after the last-used one, skipping any still on
cooldown, scanning forward circularly; if all are on cooldown, falls back
to the least-recently-used topic".  This definition follows the spec's
words and exists only to be compared with `select_fresh_topic`, which is
translated from the source. -/
def selectFreshTopicSpec (now : Nat) (posts : List Post) : String :=
  let n := ALLOWED_TOPICS.length
  let li := lastUsedIdx posts
  let order := (List.range n).map (fun k => ALLOWED_TOPICS.getD ((li + 1 + k) % n) "")
  match order.filter
      (fun t => !(is_topic_on_cooldown now posts t TOPIC_COOLDOWN_DAYS)) with
  | t :: _ => t
  | [] => fallbackLRU posts

/-- Outcome of the freshness gate in `main`. -/
inductive RunOutcome where
  | published (title : String)
  | abortedTooSimilar
deriving DecidableEq, Repr

/-- The title-freshness gate of `main` (bot.py lines 385-387 and the
publish call at line 412): when the generated title is too similar to a
recent one, the run prints a warning and returns WITHOUT publishing;
otherwise it publishes the generated title unchanged (there is no retry
loop and no disambiguating suffix anywhere in `main`). -/
def main_freshness_gate (now : Nat) (posts : List Post) (genTitle : String) :
    RunOutcome :=
  if is_title_too_similar now posts genTitle TITLE_SIMILARITY_THRESHOLD
      TITLE_SIMILARITY_BLOCK_DAYS then
    .abortedTooSimilar
  else
    .published genTitle

/-! ## Helper lemmas -/

theorem lcsAux_self (d : List Char) : ∀ fuel, d.length ≤ fuel → lcsAux fuel d d = d.length := by
  induction d with
  | nil => intro fuel _; cases fuel <;> rfl
  | cons a as ih =>
    intro fuel h
    cases fuel with
    | zero => simp at h
    | succ f =>
      have hf : as.length ≤ f := by simpa using h
      simp [lcsAux, ih f hf]

theorem lcs_self (d : List Char) : lcs d d = d.length :=
  lcsAux_self d _ (Nat.le_add_right _ _)

theorem indelScore_self (x : List Char) : indelScore x x = 100 := by
  unfold indelScore
  by_cases h : x.length + x.length = 0
  · rw [if_pos h]
  · rw [if_neg h, lcs_self]
    have hx : x.length ≠ 0 := by omega
    rw [Rat.mkRat_eq_div]
    push_cast
    rw [div_eq_iff (by positivity)]
    ring

theorem tokenSortScore_self (a : List Char) : tokenSortScore a a = 100 :=
  indelScore_self _

theorem similarityScore_of_lower_eq (t1 t2 : String)
    (h : lowerChars t1.data = lowerChars t2.data) : similarityScore t1 t2 = 100 := by
  unfold similarityScore
  rw [h]
  exact tokenSortScore_self _

theorem withinWindow_eq_true_iff (now d : Nat) (o : Option Nat) :
    withinWindow now d o = true ↔ ∃ t, o = some t ∧ now - d * daySeconds ≤ t := by
  cases o <;> simp [withinWindow]

/-! ## C7 -/

/-- C7: `is_topic_on_cooldown(history, topic, cooldownDays)` returns true
iff some record with matching topic has a parseable timestamp within
`cooldownDays` of `now` (at or after `now - cooldownDays` days).  The
hypothesis keeps the cutoff `now - cooldownDays` representable: in Python
the subtraction would raise `OverflowError` below `datetime.min`, so only
these instants are reachable. -/
theorem is_topic_on_cooldown_iff (now : Nat) (posts : List Post) (topic : String)
    (d : Nat) (hrep : d * daySeconds ≤ now) :
    is_topic_on_cooldown now posts topic d = true ↔
      ∃ p ∈ posts, p.topic = topic ∧
        ∃ t, p.utc_published = some t ∧ now - d * daySeconds ≤ t := by
  unfold is_topic_on_cooldown
  simp [List.any_eq_true, withinWindow_eq_true_iff, and_assoc]

/-- C7 witness: the spec's concrete example — history
`[{topic: "Travel", utc_published: now - 1 day}]` is on cooldown for 7
days but not for 0 days (`now` is 100 days, the record 1 day old). -/
theorem is_topic_on_cooldown_iff_app :
    is_topic_on_cooldown 8640000 [⟨"p", "Travel", some 8553600⟩] "Travel" 7 = true ∧
    is_topic_on_cooldown 8640000 [⟨"p", "Travel", some 8553600⟩] "Travel" 0 = false := by
  constructor
  · exact (is_topic_on_cooldown_iff 8640000 [⟨"p", "Travel", some 8553600⟩] "Travel" 7
      (by decide)).mpr ⟨⟨"p", "Travel", some 8553600⟩, by decide, rfl, 8553600, rfl, by decide⟩
  · decide

/-! ## C1 -/

/-- C1: for every topic `T` on cooldown, `select_fresh_topic` never
returns `T` as long as some rotation topic is not on cooldown. -/
theorem select_fresh_topic_avoids_cooldown (now : Nat) (posts : List Post) (T : String)
    (hT : is_topic_on_cooldown now posts T TOPIC_COOLDOWN_DAYS = true)
    (hex : ∃ t ∈ ALLOWED_TOPICS,
      is_topic_on_cooldown now posts t TOPIC_COOLDOWN_DAYS = false) :
    select_fresh_topic now posts ≠ T := by
  obtain ⟨t0, ht0mem, ht0⟩ := hex
  cases hfil : ALLOWED_TOPICS.filter
      (fun t => !(is_topic_on_cooldown now posts t TOPIC_COOLDOWN_DAYS)) with
  | nil =>
    exfalso
    have := List.filter_eq_nil_iff.mp hfil t0 ht0mem
    simp [ht0] at this
  | cons a as =>
    have ha : a ∈ ALLOWED_TOPICS.filter
        (fun t => !(is_topic_on_cooldown now posts t TOPIC_COOLDOWN_DAYS)) := by
      rw [hfil]; exact List.mem_cons_self _ _
    have hA : is_topic_on_cooldown now posts a TOPIC_COOLDOWN_DAYS = false := by
      simpa using (List.mem_filter.mp ha).2
    have hsel : select_fresh_topic now posts = a := by
      unfold select_fresh_topic
      rw [hfil]
    rw [hsel]
    intro hEq
    rw [hEq, hT] at hA
    cases hA

/-- C1 witness: with "Travel" freshly used (`now` is 100 days, the record
is from `now`), the selected topic is not "Travel". -/
theorem select_fresh_topic_avoids_cooldown_app :
    select_fresh_topic 8640000 [⟨"x", "Travel", some 8640000⟩] ≠ "Travel" :=
  select_fresh_topic_avoids_cooldown 8640000 [⟨"x", "Travel", some 8640000⟩] "Travel"
    (by decide) ⟨"Food and Recipes", by decide, by decide⟩

/-! ## C4 -/

/-- C4 counterexample: with threshold 101, a candidate whose normalized
(lowercased) title is identical to a recent record's title is NOT
blocked — the score is exactly 100 and `100 >= 101` fails — so exact
case-insensitive equality is not a match for every threshold value. -/
theorem title_exact_match_not_blocked_at_101 :
    lowerChars ("Abc".data) = lowerChars ("aBc".data) ∧
    withinWindow 8640000 30 (some 8640000) = true ∧
    is_title_too_similar 8640000 [⟨"Abc", "Travel", some 8640000⟩] "aBc" 101 30 = false := by
  refine ⟨by decide, by decide, by decide⟩

/-- C4 (amended): for every threshold at most 100, a history record within
the block window whose lowercased title is identical to the candidate
title makes `is_title_too_similar` return true. -/
theorem exact_title_match_blocked (now : Nat) (posts : List Post) (title : String)
    (threshold : Int) (blockDays : Nat)
    (hthr : threshold ≤ 100)
    (hp : ∃ p ∈ posts, withinWindow now blockDays p.utc_published = true ∧
          lowerChars p.title.data = lowerChars title.data) :
    is_title_too_similar now posts title threshold blockDays = true := by
  obtain ⟨p, hmem, hw, hlow⟩ := hp
  unfold is_title_too_similar
  rw [List.any_eq_true]
  refine ⟨p, hmem, ?_⟩
  rw [hw, Bool.true_and, decide_eq_true_iff]
  rw [similarityScore_of_lower_eq title p.title hlow.symm]
  exact_mod_cast hthr

/-- C4 witness: at the default threshold 65, the candidate "aBc" is
blocked by the recent record titled "Abc". -/
theorem exact_title_match_blocked_app :
    is_title_too_similar 8640000 [⟨"Abc", "Travel", some 8640000⟩] "aBc" 65 30 = true :=
  exact_title_match_blocked 8640000 [⟨"Abc", "Travel", some 8640000⟩] "aBc" 65 30
    (by decide) (by decide)

/-! ## C5 -/

/-- C5 counterexample: when the generated title collides with a recent
one, `main` does NOT publish a best-effort result — it aborts: the gate
returns `abortedTooSimilar`, and no `published` outcome is produced. -/
theorem freshness_gate_abort_cex :
    is_title_too_similar 8640000 [⟨"abc", "Travel", some 8640000⟩] "abc"
      TITLE_SIMILARITY_THRESHOLD TITLE_SIMILARITY_BLOCK_DAYS = true ∧
    main_freshness_gate 8640000 [⟨"abc", "Travel", some 8640000⟩] "abc" =
      .abortedTooSimilar ∧
    ∀ t, main_freshness_gate 8640000 [⟨"abc", "Travel", some 8640000⟩] "abc" ≠
      .published t := by
  refine ⟨by decide, by decide, fun t h => ?_⟩
  rw [show main_freshness_gate 8640000 [⟨"abc", "Travel", some 8640000⟩] "abc" =
    .abortedTooSimilar from by decide] at h
  exact RunOutcome.noConfusion h

/-- C5 (amended): whenever the generated title is too similar to a recent
one, the run logs and returns without publishing (it aborts; there is no
retry and no disambiguating suffix). -/
theorem freshness_gate_aborts_on_similar (now : Nat) (posts : List Post) (title : String)
    (h : is_title_too_similar now posts title TITLE_SIMILARITY_THRESHOLD
      TITLE_SIMILARITY_BLOCK_DAYS = true) :
    main_freshness_gate now posts title = .abortedTooSimilar := by
  simp [main_freshness_gate, h]

/-- C5 witness. -/
theorem freshness_gate_aborts_on_similar_app :
    main_freshness_gate 8640000 [⟨"xyz", "Travel", some 8640000⟩] "xyz" =
      .abortedTooSimilar :=
  freshness_gate_aborts_on_similar 8640000 [⟨"xyz", "Travel", some 8640000⟩] "xyz"
    (by decide)

/-! ## C6 -/

/-- C6 counterexample: on a history whose single record has a missing or
unparseable timestamp, `prune_history`'s list comprehension raises
(modelled by `none`) instead of skipping the record and returning
normally. -/
theorem prune_raises_on_malformed_cex :
    prunePosts 8640000 [⟨"t", "Travel", none⟩] = none ∧
    ∀ qs : List Post, prunePosts 8640000 [⟨"t", "Travel", none⟩] ≠ some qs := by
  refine ⟨by decide, fun qs h => ?_⟩
  rw [show prunePosts 8640000 [⟨"t", "Travel", none⟩] = none from by decide] at h
  exact Option.noConfusion h

/-- C6 (amended): a record with a missing or unparseable timestamp is
skipped by the cooldown check and by the title-similarity check (removing
it does not change their result, and both return normally), but
`prune_history` raises on it. -/
theorem malformed_timestamp_handling (now : Nat) (l1 l2 : List Post) (r : Post)
    (topic title : String) (cd : Nat) (th : Int) (bd : Nat)
    (hr : r.utc_published = none) :
    is_topic_on_cooldown now (l1 ++ r :: l2) topic cd =
      is_topic_on_cooldown now (l1 ++ l2) topic cd ∧
    is_title_too_similar now (l1 ++ r :: l2) title th bd =
      is_title_too_similar now (l1 ++ l2) title th bd ∧
    prunePosts now (l1 ++ r :: l2) = none := by
  refine ⟨?_, ?_, ?_⟩
  · simp [is_topic_on_cooldown, List.any_append, List.any_cons, hr, withinWindow]
  · simp [is_title_too_similar, List.any_append, List.any_cons, hr, withinWindow]
  · simp [prunePosts, List.all_append, List.all_cons, hr]

/-- C6 witness. -/
theorem malformed_timestamp_handling_app :
    is_topic_on_cooldown 8640000 ([] ++ ⟨"t", "Travel", none⟩ :: []) "Travel" 7 =
      is_topic_on_cooldown 8640000 ([] ++ []) "Travel" 7 ∧
    is_title_too_similar 8640000 ([] ++ ⟨"t", "Travel", none⟩ :: []) "t" 65 30 =
      is_title_too_similar 8640000 ([] ++ []) "t" 65 30 ∧
    prunePosts 8640000 ([] ++ ⟨"t", "Travel", none⟩ :: []) = none :=
  malformed_timestamp_handling 8640000 [] [] ⟨"t", "Travel", none⟩ "Travel" "t" 7 65 30 rfl

/-! ## C8 -/

/-- C8 counterexample: a history file whose bytes are not valid UTF-8 is
a corrupt content state on which `load_history` raises — `json.load`
fails with `UnicodeDecodeError`, which the `except json.JSONDecodeError`
clause does not catch — so it neither returns normally nor yields the
empty history. -/
theorem load_history_not_utf8_cex :
    load_history .notUtf8 = none ∧ load_history .notUtf8 ≠ some emptyHistory := by
  exact ⟨rfl, fun h => Option.noConfusion h⟩

/-- C8 (amended): `load_history` returns the empty history on a missing
file and on a UTF-8-decodable file whose contents fail JSON parsing, and
returns a decodable document unchanged; but on a file whose bytes are
not valid UTF-8 it raises `UnicodeDecodeError` instead of returning. -/
theorem load_history_decode_handling (fs : FileState) :
    (fs = .missing ∨ fs = .badJson → load_history fs = some emptyHistory) ∧
    (fs = .notUtf8 → load_history fs = none) ∧
    (∀ doc, fs = .valid doc → load_history fs = some doc) := by
  refine ⟨?_, ?_, ?_⟩
  · rintro (rfl | rfl) <;> rfl
  · rintro rfl; rfl
  · rintro doc rfl; rfl

/-- C8 witness. -/
theorem load_history_decode_handling_app :
    load_history .badJson = some emptyHistory ∧ load_history .notUtf8 = none :=
  ⟨(load_history_decode_handling .badJson).1 (Or.inr rfl),
   (load_history_decode_handling .notUtf8).2.1 rfl⟩

/-! ## C9 -/

theorem prunePosts_idem (now : Nat) (ps qs : List Post)
    (h : prunePosts now ps = some qs) : prunePosts now qs = some qs := by
  unfold prunePosts at h ⊢
  split at h
  case isTrue hall =>
    injection h with h
    subst h
    have hall2 : (ps.filter (keepRecent now)).all
        (fun p => p.utc_published.isSome) = true := by
      rw [List.all_eq_true] at hall ⊢
      intro p hp
      exact hall p (List.mem_of_mem_filter hp)
    rw [if_pos hall2]
    congr 1
    apply List.filter_eq_self.mpr
    intro p hp
    exact (List.mem_filter.mp hp).2
  case isFalse => cases h

/-- C9: pruning is idempotent — if `prune_history` succeeds (every record
has a parseable timestamp), pruning the result again with the same `now`
returns it unchanged. -/
theorem prune_history_idem (now : Nat) (doc doc₂ : HistoryDoc)
    (h : prune_history now doc = some doc₂) :
    prune_history now doc₂ = some doc₂ := by
  rcases doc with ⟨_ | ps⟩
  · simp only [prune_history] at h
    injection h with h
    subst h
    simp [prune_history, prunePosts]
  · simp only [prune_history] at h
    rcases Option.map_eq_some'.mp h with ⟨qs, hq, hdoc⟩
    subst hdoc
    simp only [prune_history]
    rw [prunePosts_idem now ps qs hq]
    rfl

/-- C9 witness: a two-record history (one fresh, one 31 days old) prunes
to the fresh record, and pruning again returns it unchanged. -/
theorem prune_history_idem_app :
    prune_history 8640000 ⟨some [⟨"a", "Travel", some 8640000⟩]⟩ =
      some ⟨some [⟨"a", "Travel", some 8640000⟩]⟩ :=
  prune_history_idem 8640000
    ⟨some [⟨"a", "Travel", some 8640000⟩, ⟨"b", "Fashion", some 6047999⟩]⟩
    ⟨some [⟨"a", "Travel", some 8640000⟩]⟩ (by decide)

/-! ## C2 -/

theorem head_filter_spec {α : Type} (p : α → Bool) :
    ∀ (l : List α) (x : α) (xs : List α), l.filter p = x :: xs →
      ∃ i, l.get? i = some x ∧ p x = true ∧
        ∀ j, j < i → ∀ y, l.get? j = some y → p y = false := by
  intro l
  induction l with
  | nil => intro x xs h; simp at h
  | cons a l ih =>
    intro x xs h
    by_cases hpa : p a = true
    · rw [List.filter_cons_of_pos hpa] at h
      injection h with h1 _
      subst h1
      exact ⟨0, rfl, hpa, fun j hj y => by omega⟩
    · have hpa' : p a = false := by
        cases hb : p a
        · rfl
        · exact absurd hb hpa
      rw [List.filter_cons_of_neg (by simp [hpa'])] at h
      obtain ⟨i, hget, hpx, hbefore⟩ := ih x xs h
      refine ⟨i + 1, hget, hpx, fun j hj y hy => ?_⟩
      cases j with
      | zero =>
        injection hy with hy
        subst hy
        exact hpa'
      | succ j => exact hbefore j (by omega) y hy

/-- C2 counterexample: with a single record ("Travel", 10 days old, hence
off cooldown) nothing is on cooldown; the spec's scan ("next rotation
entry after the last-used one, circularly, skipping cooldown") would give
"How-To Guides and Tutorials" (the entry after "Travel"), but the code
returns "Personal Life and Stories" — the first entry of the fixed
rotation list, ignoring which topic was last used. -/
theorem select_fresh_topic_not_rotation_scan_cex :
    (∃ t ∈ ALLOWED_TOPICS, is_topic_on_cooldown 8640000
      [⟨"old travel post", "Travel", some 7776000⟩] t TOPIC_COOLDOWN_DAYS = false) ∧
    selectFreshTopicSpec 8640000 [⟨"old travel post", "Travel", some 7776000⟩] =
      "How-To Guides and Tutorials" ∧
    select_fresh_topic 8640000 [⟨"old travel post", "Travel", some 7776000⟩] =
      "Personal Life and Stories" ∧
    select_fresh_topic 8640000 [⟨"old travel post", "Travel", some 7776000⟩] ≠
      selectFreshTopicSpec 8640000 [⟨"old travel post", "Travel", some 7776000⟩] := by
  refine ⟨⟨"Travel", by decide, by decide⟩, by decide, by decide, by decide⟩

/-- C2 (amended): when at least one rotation topic is not on cooldown,
`select_fresh_topic` returns the first topic of the fixed `ALLOWED_TOPICS`
order that is not on cooldown (every earlier rotation entry is on
cooldown), independent of which topic was last used. -/
theorem select_fresh_topic_first_available (now : Nat) (posts : List Post)
    (hex : ∃ t ∈ ALLOWED_TOPICS,
      is_topic_on_cooldown now posts t TOPIC_COOLDOWN_DAYS = false) :
    ∃ i t, ALLOWED_TOPICS.get? i = some t ∧
      select_fresh_topic now posts = t ∧
      is_topic_on_cooldown now posts t TOPIC_COOLDOWN_DAYS = false ∧
      ∀ j, j < i → ∀ u, ALLOWED_TOPICS.get? j = some u →
        is_topic_on_cooldown now posts u TOPIC_COOLDOWN_DAYS = true := by
  obtain ⟨t0, ht0mem, ht0⟩ := hex
  cases hfil : ALLOWED_TOPICS.filter
      (fun t => !(is_topic_on_cooldown now posts t TOPIC_COOLDOWN_DAYS)) with
  | nil =>
    exfalso
    have := List.filter_eq_nil_iff.mp hfil t0 ht0mem
    simp [ht0] at this
  | cons a as =>
    obtain ⟨i, hget, hpa, hbefore⟩ := head_filter_spec _ ALLOWED_TOPICS a as hfil
    refine ⟨i, a, hget, ?_, ?_, ?_⟩
    · unfold select_fresh_topic
      rw [hfil]
    · simpa using hpa
    · intro j hj u hu
      have := hbefore j hj u hu
      simpa using this

/-- C2 witness: with the first rotation topic freshly used, the selection
is "Food and Recipes", the second rotation entry. -/
theorem select_fresh_topic_first_available_app :
    ∃ i t, ALLOWED_TOPICS.get? i = some t ∧
      select_fresh_topic 8640000 [⟨"x", "Personal Life and Stories", some 8640000⟩] = t ∧
      is_topic_on_cooldown 8640000 [⟨"x", "Personal Life and Stories", some 8640000⟩] t
        TOPIC_COOLDOWN_DAYS = false ∧
      ∀ j, j < i → ∀ u, ALLOWED_TOPICS.get? j = some u →
        is_topic_on_cooldown 8640000 [⟨"x", "Personal Life and Stories", some 8640000⟩] u
          TOPIC_COOLDOWN_DAYS = true :=
  select_fresh_topic_first_available 8640000
    [⟨"x", "Personal Life and Stories", some 8640000⟩]
    ⟨"Food and Recipes", by decide, by decide⟩

/-! ## C3 -/

theorem argminFirst_mem : ∀ (xs : List (String × Nat)) (best : String × Nat),
    argminFirst best xs ∈ best :: xs := by
  intro xs
  induction xs with
  | nil => intro best; simp [argminFirst]
  | cons x xs ih =>
    intro best
    simp only [argminFirst]
    rcases List.mem_cons.mp (ih (if x.2 < best.2 then x else best)) with h | h
    · rw [h]
      split
      · exact List.mem_cons_of_mem _ (List.mem_cons_self _ _)
      · exact List.mem_cons_self _ _
    · exact List.mem_cons_of_mem _ (List.mem_cons_of_mem _ h)

theorem argminFirst_le : ∀ (xs : List (String × Nat)) (best y : String × Nat),
    y ∈ best :: xs → (argminFirst best xs).2 ≤ y.2 := by
  intro xs
  induction xs with
  | nil =>
    intro best y hy
    simp at hy
    subst hy
    simp [argminFirst]
  | cons x xs ih =>
    intro best y hy
    simp only [argminFirst]
    have hb : (if x.2 < best.2 then x else best).2 ≤ best.2 := by split <;> omega
    have hx2 : (if x.2 < best.2 then x else best).2 ≤ x.2 := by split <;> omega
    have hself : (argminFirst (if x.2 < best.2 then x else best) xs).2 ≤
        (if x.2 < best.2 then x else best).2 :=
      ih _ _ (List.mem_cons_self _ _)
    rcases List.mem_cons.mp hy with h | h
    · subst h; omega
    · rcases List.mem_cons.mp h with h2 | h2
      · subst h2; omega
      · exact ih _ y (List.mem_cons_of_mem _ h2)

theorem tluStep_ge (topic : String) (acc : Nat) (p : Post) : acc ≤ tluStep topic acc p := by
  unfold tluStep
  split
  · cases p.utc_published with
    | none => exact Nat.le_refl _
    | some s => simp only; split <;> omega
  · exact Nat.le_refl _

theorem tluStep_ge_ts (topic : String) (acc : Nat) (p : Post) (s : Nat)
    (ht : p.topic = topic) (hs : p.utc_published = some s) : s ≤ tluStep topic acc p := by
  rcases p with ⟨ti, tp, pub⟩
  obtain rfl : tp = topic := ht
  obtain rfl : pub = some s := hs
  simp only [tluStep, beq_self_eq_true, if_true]
  split <;> omega

theorem foldl_tluStep_ge (topic : String) :
    ∀ (posts : List Post) (init : Nat), init ≤ posts.foldl (tluStep topic) init := by
  intro posts
  induction posts with
  | nil => intro init; exact Nat.le_refl _
  | cons p ps ih =>
    intro init
    exact Nat.le_trans (tluStep_ge topic init p) (ih (tluStep topic init p))

theorem topicLastUsed_ge (posts : List Post) (topic : String) (p : Post) (s : Nat)
    (hmem : p ∈ posts) (ht : p.topic = topic) (hs : p.utc_published = some s) :
    s ≤ topicLastUsed posts topic := by
  unfold topicLastUsed
  have aux : ∀ (l : List Post) (init : Nat), p ∈ l →
      s ≤ l.foldl (tluStep topic) init := by
    intro l
    induction l with
    | nil => intro init h; simp at h
    | cons q qs ih =>
      intro init h
      rcases List.mem_cons.mp h with h | h
      · subst h
        exact Nat.le_trans (tluStep_ge_ts topic init p s ht hs)
          (foldl_tluStep_ge topic qs _)
      · exact ih _ h
  exact aux posts 0 hmem

theorem topicLastUsed_eq_zero (posts : List Post) (topic : String)
    (h : ∀ p ∈ posts, p.topic ≠ topic) : topicLastUsed posts topic = 0 := by
  unfold topicLastUsed
  have aux : ∀ (l : List Post) (init : Nat), (∀ p ∈ l, p.topic ≠ topic) →
      l.foldl (tluStep topic) init = init := by
    intro l
    induction l with
    | nil => intro init _; rfl
    | cons q qs ih =>
      intro init hl
      have hq : q.topic ≠ topic := hl q (List.mem_cons_self _ _)
      have hstep : tluStep topic init q = init := by
        unfold tluStep
        rw [if_neg (by simpa using hq)]
      rw [List.foldl_cons, hstep]
      exact ih init (fun p hp => hl p (List.mem_cons_of_mem _ hp))
  exact aux posts 0 h

theorem argmin_map_spec (posts : List Post) (l : List String)
    (x : String × Nat) (xs : List (String × Nat))
    (hmap : l.map (fun t => (t, topicLastUsed posts t)) = x :: xs) :
    (argminFirst x xs).1 ∈ l ∧
    ∀ u ∈ l, topicLastUsed posts (argminFirst x xs).1 ≤ topicLastUsed posts u := by
  have hmemCons : argminFirst x xs ∈ l.map (fun t => (t, topicLastUsed posts t)) := by
    rw [hmap]; exact argminFirst_mem xs x
  obtain ⟨t, htl, hteq⟩ := List.mem_map.mp hmemCons
  constructor
  · rw [← hteq]
    exact htl
  · intro u hu
    have hpair : (u, topicLastUsed posts u) ∈ x :: xs := by
      rw [← hmap]; exact List.mem_map_of_mem _ hu
    have hle := argminFirst_le xs x (u, topicLastUsed posts u) hpair
    have h2 : topicLastUsed posts (argminFirst x xs).1 = (argminFirst x xs).2 := by
      rw [← hteq]
    rw [h2]
    exact hle

/-- C3: when every rotation topic is on cooldown, `select_fresh_topic`
returns a rotation topic whose last-seen timestamp is minimal among all
rotation topics (Python's `min` picks the first minimal one on ties);
a topic with no history record at all has last-seen value 0 — that is
`datetime.min`, the minimum possible instant ("infinitely stale") — and
in particular is strictly staler than any topic that appears with a
parseable timestamp after `datetime.min`. -/
theorem select_fresh_topic_fallback_lru (now : Nat) (posts : List Post)
    (hall : ∀ t ∈ ALLOWED_TOPICS,
      is_topic_on_cooldown now posts t TOPIC_COOLDOWN_DAYS = true) :
    select_fresh_topic now posts ∈ ALLOWED_TOPICS ∧
    (∀ t ∈ ALLOWED_TOPICS,
      topicLastUsed posts (select_fresh_topic now posts) ≤ topicLastUsed posts t) ∧
    (∀ t, (∀ p ∈ posts, p.topic ≠ t) → topicLastUsed posts t = 0) ∧
    (∀ t u, (∀ p ∈ posts, p.topic ≠ t) →
      (∃ p ∈ posts, p.topic = u ∧ ∃ s, p.utc_published = some s ∧ 0 < s) →
      topicLastUsed posts t < topicLastUsed posts u) := by
  have hfil : ALLOWED_TOPICS.filter
      (fun t => !(is_topic_on_cooldown now posts t TOPIC_COOLDOWN_DAYS)) = [] := by
    apply List.filter_eq_nil_iff.mpr
    intro t ht
    simp [hall t ht]
  have hsel : select_fresh_topic now posts = fallbackLRU posts := by
    unfold select_fresh_topic
    rw [hfil]
  cases hmap : ALLOWED_TOPICS.map (fun t => (t, topicLastUsed posts t)) with
  | nil => simp [ALLOWED_TOPICS] at hmap
  | cons x xs =>
    have hlru : fallbackLRU posts = (argminFirst x xs).1 := by
      unfold fallbackLRU
      rw [hmap]
    obtain ⟨hmem, hmin⟩ := argmin_map_spec posts ALLOWED_TOPICS x xs hmap
    rw [hsel, hlru]
    refine ⟨hmem, hmin, fun t hnone => topicLastUsed_eq_zero posts t hnone, ?_⟩
    rintro t u hnone ⟨p, hp, hpt, s, hs, hspos⟩
    rw [topicLastUsed_eq_zero posts t hnone]
    exact Nat.lt_of_lt_of_le hspos (topicLastUsed_ge posts u p s hp hpt hs)

/-- Concrete history for the C3 witness: each rotation topic used within
the last day before `now = 8640000` (100 days), in 1-hour steps. -/
def c3posts : List Post :=
  [⟨"a0", "Personal Life and Stories", some 8636400⟩,
   ⟨"a1", "Food and Recipes", some 8632800⟩,
   ⟨"a2", "Travel", some 8629200⟩,
   ⟨"a3", "How-To Guides and Tutorials", some 8625600⟩,
   ⟨"a4", "Product Reviews", some 8622000⟩,
   ⟨"a5", "Money and Finance", some 8618400⟩,
   ⟨"a6", "Productivity", some 8614800⟩,
   ⟨"a7", "Health and Fitness", some 8611200⟩,
   ⟨"a8", "Fashion", some 8607600⟩,
   ⟨"a9", "Lists and Roundups", some 8604000⟩]

/-- C3 witness: all ten rotation topics used within the last day (all on
cooldown); the fallback applies. -/
theorem select_fresh_topic_fallback_lru_app :
    select_fresh_topic 8640000 c3posts ∈ ALLOWED_TOPICS ∧
    (∀ t ∈ ALLOWED_TOPICS,
      topicLastUsed c3posts (select_fresh_topic 8640000 c3posts) ≤
        topicLastUsed c3posts t) ∧
    (∀ t, (∀ p ∈ c3posts, p.topic ≠ t) → topicLastUsed c3posts t = 0) ∧
    (∀ t u, (∀ p ∈ c3posts, p.topic ≠ t) →
      (∃ p ∈ c3posts, p.topic = u ∧ ∃ s, p.utc_published = some s ∧ 0 < s) →
      topicLastUsed c3posts t < topicLastUsed c3posts u) :=
  select_fresh_topic_fallback_lru 8640000 c3posts (by decide)

/-! ## C10 -/

/-- No two records share both title and timestamp. -/
def pairNoDup (ps : List Post) : Prop :=
  ps.Pairwise (fun p q => ¬(p.title = q.title ∧ p.utc_published = q.utc_published))

theorem bool_eq_false {b : Bool} (h : ¬ b = true) : b = false := by
  cases b
  · rfl
  · exact absurd rfl h

theorem updateStep_some_eq (now : Nat) (acc : List Post) (ti : String) (t : Nat)
    (tp : String) :
    updateStep now acc ⟨ti, some t, tp⟩ =
      if t < now - MAX_HISTORY_DAYS * daySeconds then acc
      else if acc.any (fun p => p.title == ti && p.utc_published == some t) then acc
      else acc ++ [⟨ti, tp, some t⟩] := rfl

theorem updateStep_none_eq (now : Nat) (acc : List Post) (ti : String) (tp : String) :
    updateStep now acc ⟨ti, none, tp⟩ =
      if acc.any (fun p => p.title == ti && p.utc_published == some now) then acc
      else acc ++ [⟨ti, tp, some now⟩] := rfl

theorem updateStep_append (now : Nat) (acc : List Post) (rp : RemotePost) :
    ∃ l, updateStep now acc rp = acc ++ l := by
  rcases rp with ⟨ti, pub, tp⟩
  cases pub with
  | some t =>
    rw [updateStep_some_eq]
    by_cases h1 : t < now - MAX_HISTORY_DAYS * daySeconds
    · exact ⟨[], by rw [if_pos h1, List.append_nil]⟩
    · rw [if_neg h1]
      by_cases h2 : (acc.any fun p => p.title == ti && p.utc_published == some t) = true
      · exact ⟨[], by rw [if_pos h2, List.append_nil]⟩
      · exact ⟨_, by rw [if_neg h2]⟩
  | none =>
    rw [updateStep_none_eq]
    by_cases h2 : (acc.any fun p => p.title == ti && p.utc_published == some now) = true
    · exact ⟨[], by rw [if_pos h2, List.append_nil]⟩
    · exact ⟨_, by rw [if_neg h2]⟩

theorem foldl_updateStep_append (now : Nat) :
    ∀ (rs : List RemotePost) (acc : List Post),
      ∃ l, rs.foldl (updateStep now) acc = acc ++ l := by
  intro rs
  induction rs with
  | nil => intro acc; exact ⟨[], by simp⟩
  | cons rp rs ih =>
    intro acc
    obtain ⟨l0, hl0⟩ := updateStep_append now acc rp
    obtain ⟨l1, hl1⟩ := ih (updateStep now acc rp)
    exact ⟨l0 ++ l1, by rw [List.foldl_cons, hl1, hl0, List.append_assoc]⟩

theorem mem_foldl_updateStep (now : Nat) (rs : List RemotePost) (acc : List Post)
    (p : Post) (h : p ∈ acc) : p ∈ rs.foldl (updateStep now) acc := by
  obtain ⟨l, hl⟩ := foldl_updateStep_append now rs acc
  rw [hl]
  exact List.mem_append_left _ h

theorem mem_updateStep_some (now : Nat) (acc : List Post) (rp : RemotePost) (t : Nat)
    (hpub : rp.published = some t) (ht : now - MAX_HISTORY_DAYS * daySeconds ≤ t) :
    ∃ p ∈ updateStep now acc rp, p.title = rp.title ∧ p.utc_published = some t := by
  rcases rp with ⟨ti, pub, tp⟩
  obtain rfl : pub = some t := hpub
  rw [updateStep_some_eq, if_neg (by omega)]
  by_cases hany : (acc.any fun p => p.title == ti && p.utc_published == some t) = true
  · rw [if_pos hany]
    obtain ⟨p, hp, hmatch⟩ := List.any_eq_true.mp hany
    rw [Bool.and_eq_true, beq_iff_eq, beq_iff_eq] at hmatch
    exact ⟨p, hp, hmatch.1, hmatch.2⟩
  · rw [if_neg hany]
    exact ⟨⟨ti, tp, some t⟩, List.mem_append_right _ (List.mem_singleton.mpr rfl),
      rfl, rfl⟩

theorem mem_updateStep_none (now : Nat) (acc : List Post) (rp : RemotePost)
    (hpub : rp.published = none) :
    ∃ p ∈ updateStep now acc rp, p.title = rp.title ∧ p.utc_published = some now := by
  rcases rp with ⟨ti, pub, tp⟩
  obtain rfl : pub = none := hpub
  rw [updateStep_none_eq]
  by_cases hany : (acc.any fun p => p.title == ti && p.utc_published == some now) = true
  · rw [if_pos hany]
    obtain ⟨p, hp, hmatch⟩ := List.any_eq_true.mp hany
    rw [Bool.and_eq_true, beq_iff_eq, beq_iff_eq] at hmatch
    exact ⟨p, hp, hmatch.1, hmatch.2⟩
  · rw [if_neg hany]
    exact ⟨⟨ti, tp, some now⟩, List.mem_append_right _ (List.mem_singleton.mpr rfl),
      rfl, rfl⟩

theorem presence_some (now : Nat) :
    ∀ (rs : List RemotePost) (acc : List Post) (rp : RemotePost) (t : Nat),
      rp ∈ rs → rp.published = some t → now - MAX_HISTORY_DAYS * daySeconds ≤ t →
      ∃ p ∈ rs.foldl (updateStep now) acc, p.title = rp.title ∧ p.utc_published = some t := by
  intro rs
  induction rs with
  | nil => intro acc rp t h; simp at h
  | cons rp0 rs ih =>
    intro acc rp t hmem hpub ht
    rw [List.foldl_cons]
    rcases List.mem_cons.mp hmem with h | h
    · subst h
      obtain ⟨p, hp, hfields⟩ := mem_updateStep_some now acc rp t hpub ht
      exact ⟨p, mem_foldl_updateStep now rs _ p hp, hfields⟩
    · exact ih _ rp t h hpub ht

theorem presence_none (now : Nat) :
    ∀ (rs : List RemotePost) (acc : List Post) (rp : RemotePost),
      rp ∈ rs → rp.published = none →
      ∃ p ∈ rs.foldl (updateStep now) acc, p.title = rp.title ∧ p.utc_published = some now := by
  intro rs
  induction rs with
  | nil => intro acc rp h; simp at h
  | cons rp0 rs ih =>
    intro acc rp hmem hpub
    rw [List.foldl_cons]
    rcases List.mem_cons.mp hmem with h | h
    · subst h
      obtain ⟨p, hp, hfields⟩ := mem_updateStep_none now acc rp hpub
      exact ⟨p, mem_foldl_updateStep now rs _ p hp, hfields⟩
    · exact ih _ rp h hpub

theorem foldl_id_of_steps_id (now : Nat) :
    ∀ (rs : List RemotePost) (acc : List Post),
      (∀ rp ∈ rs, updateStep now acc rp = acc) →
      rs.foldl (updateStep now) acc = acc := by
  intro rs
  induction rs with
  | nil => intro acc _; rfl
  | cons rp rs ih =>
    intro acc h
    rw [List.foldl_cons, h rp (List.mem_cons_self _ _)]
    exact ih acc (fun q hq => h q (List.mem_cons_of_mem _ hq))

theorem pairNoDup_append_one (acc : List Post) (x : Post)
    (h : pairNoDup acc)
    (hx : acc.any (fun p => p.title == x.title && p.utc_published == x.utc_published) = false) :
    pairNoDup (acc ++ [x]) := by
  unfold pairNoDup at h ⊢
  rw [List.pairwise_append]
  refine ⟨h, List.pairwise_singleton _ _, ?_⟩
  intro a ha b hb
  rw [List.mem_singleton] at hb
  subst hb
  have := List.any_eq_false.mp hx a ha
  rw [Bool.and_eq_true, beq_iff_eq, beq_iff_eq] at this
  exact fun hcontra => this ⟨hcontra.1, hcontra.2⟩

theorem pairNoDup_updateStep (now : Nat) (acc : List Post) (rp : RemotePost)
    (h : pairNoDup acc) : pairNoDup (updateStep now acc rp) := by
  rcases rp with ⟨ti, pub, tp⟩
  cases pub with
  | some t =>
    rw [updateStep_some_eq]
    by_cases h1 : t < now - MAX_HISTORY_DAYS * daySeconds
    · rw [if_pos h1]; exact h
    · rw [if_neg h1]
      by_cases hany : (acc.any fun p => p.title == ti && p.utc_published == some t) = true
      · rw [if_pos hany]; exact h
      · rw [if_neg hany]
        exact pairNoDup_append_one acc ⟨ti, tp, some t⟩ h (bool_eq_false hany)
  | none =>
    rw [updateStep_none_eq]
    by_cases hany : (acc.any fun p => p.title == ti && p.utc_published == some now) = true
    · rw [if_pos hany]; exact h
    · rw [if_neg hany]
      exact pairNoDup_append_one acc ⟨ti, tp, some now⟩ h (bool_eq_false hany)

theorem pairNoDup_foldl (now : Nat) :
    ∀ (rs : List RemotePost) (acc : List Post),
      pairNoDup acc → pairNoDup (rs.foldl (updateStep now) acc) := by
  intro rs
  induction rs with
  | nil => intro acc h; exact h
  | cons rp rs ih =>
    intro acc h
    exact ih _ (pairNoDup_updateStep now acc rp h)

theorem prunePosts_eq_some (now : Nat) (ps qs : List Post)
    (h : prunePosts now ps = some qs) : qs = ps.filter (keepRecent now) := by
  unfold prunePosts at h
  split at h
  · injection h with h; exact h.symm
  · cases h

/-- C10 (amended): `update_history_from_blog` appends a record for a
remote post only if no existing record matches on both title and
timestamp, so it preserves the no-duplicate-(title, utc_published)
invariant; and refreshing twice with the same remote posts AND the same
`now` leaves the history unchanged after the first refresh. -/
theorem update_history_dedup (now : Nat) (remote : List RemotePost)
    (posts res : List Post)
    (h : update_history_from_blog now remote posts = some res) :
    (pairNoDup posts → pairNoDup res) ∧
    update_history_from_blog now remote res = some res := by
  have hres : res = (remote.foldl (updateStep now) posts).filter (keepRecent now) :=
    prunePosts_eq_some now _ res h
  constructor
  · intro hnd
    rw [hres]
    exact (pairNoDup_foldl now remote posts hnd).sublist (List.filter_sublist _)
  · have hsteps : ∀ rp ∈ remote, updateStep now res rp = res := by
      intro rp hrp
      rcases rp with ⟨ti, pub, tp⟩
      cases pub with
      | some t =>
        by_cases hold : t < now - MAX_HISTORY_DAYS * daySeconds
        · rw [updateStep_some_eq, if_pos hold]
        · obtain ⟨p, hp, hpt, hpts⟩ :=
            presence_some now remote posts ⟨ti, some t, tp⟩ t hrp rfl (by omega)
          have hkeep : keepRecent now p = true := by
            unfold keepRecent
            rw [hpts]
            simp only [withinWindow, decide_eq_true_eq]
            omega
          have hpres : p ∈ res := by
            rw [hres]
            exact List.mem_filter.mpr ⟨hp, hkeep⟩
          have hany : (res.any fun q => q.title == ti && q.utc_published == some t) = true :=
            List.any_eq_true.mpr ⟨p, hpres, by
              rw [Bool.and_eq_true, beq_iff_eq, beq_iff_eq]
              exact ⟨hpt, hpts⟩⟩
          rw [updateStep_some_eq, if_neg hold, if_pos hany]
      | none =>
        obtain ⟨p, hp, hpt, hpts⟩ := presence_none now remote posts ⟨ti, none, tp⟩ hrp rfl
        have hkeep : keepRecent now p = true := by
          unfold keepRecent
          rw [hpts]
          simp only [withinWindow, decide_eq_true_eq]
          omega
        have hpres : p ∈ res := by
          rw [hres]
          exact List.mem_filter.mpr ⟨hp, hkeep⟩
        have hany : (res.any fun q => q.title == ti && q.utc_published == some now) = true :=
          List.any_eq_true.mpr ⟨p, hpres, by
            rw [Bool.and_eq_true, beq_iff_eq, beq_iff_eq]
            exact ⟨hpt, hpts⟩⟩
        rw [updateStep_none_eq, if_pos hany]
    unfold update_history_from_blog
    rw [foldl_id_of_steps_id now remote res hsteps]
    exact prunePosts_idem now _ res h

/-- C10 counterexample: a remote post whose `published` field does not
parse is stamped with the current time, so refreshing twice (the second
run one second later) appends a second record for the same remote post —
the history is NOT left unchanged by a second refresh with the same
remote posts. -/
theorem update_history_reappends_unparseable_cex :
    update_history_from_blog 5184000 [⟨"remote", none, "Unknown"⟩] [] =
      some [⟨"remote", "Unknown", some 5184000⟩] ∧
    update_history_from_blog 5184001 [⟨"remote", none, "Unknown"⟩]
      [⟨"remote", "Unknown", some 5184000⟩] =
      some [⟨"remote", "Unknown", some 5184000⟩, ⟨"remote", "Unknown", some 5184001⟩] ∧
    ([⟨"remote", "Unknown", some 5184000⟩, ⟨"remote", "Unknown", some 5184001⟩] :
      List Post) ≠ [⟨"remote", "Unknown", some 5184000⟩] := by
  refine ⟨by decide, by decide, by decide⟩

/-- C10 witness: one remote post already recorded; refreshing again with
the same `now` changes nothing. -/
theorem update_history_dedup_app :
    (pairNoDup [] → pairNoDup [⟨"a", "T", some 5184000⟩]) ∧
    update_history_from_blog 5184000 [⟨"a", some 5184000, "T"⟩]
      [⟨"a", "T", some 5184000⟩] = some [⟨"a", "T", some 5184000⟩] :=
  update_history_dedup 5184000 [⟨"a", some 5184000, "T"⟩] [] [⟨"a", "T", some 5184000⟩]
    (by decide)

end BloggerBot
